import Mathlib

/-!
# Verification of the gaap package-transition engine against its specification

Shallow embedding of the core of gaap (a GitHub-release package manager):
the asset selector (`pkg/platform/platform.go`), the metadata store
(`pkg/storage/libsql.go`), the repository resolver (`pkg/selector`), and the
install/update/remove transition engine (`pkg/installer/installer.go`).

Strings are Lean `String`s; Go `strings.Contains`/`ToLower`/`HasSuffix` are
modelled on the character lists.  Fallible effects (network, filesystem, SQL)
are modelled by explicit oracles and an event trace, so that claims about
ordering, compensation and frame conditions become statements about the
returned value, the final world state and the trace.
-/

set_option autoImplicit false

deriving instance DecidableEq for Except

namespace Gaap

/-! ## Go string primitives -/

/-- Executable substring containment on character lists: `needle` occurs
contiguously in the haystack. -/
def infixOfAux (needle : List Char) : List Char → Bool
  | [] => needle.isEmpty
  | c :: rest => needle.isPrefixOf (c :: rest) || infixOfAux needle rest

/-- Go `strings.Contains s sub`: `sub` occurs as a contiguous substring of `s`. -/
def goContains (s sub : String) : Bool :=
  infixOfAux sub.toList s.toList

/-- Go `strings.HasSuffix s suf`. -/
def goHasSuffix (s suf : String) : Bool :=
  suf.toList.isSuffixOf s.toList

/-- Go `strings.ToLower` (ASCII case folding, which is all the source applies
it to). -/
def goToLower (s : String) : String :=
  String.mk (s.toList.map Char.toLower)

/-- Splitting a character list at every occurrence of `c`; always returns at
least one (possibly empty) piece. -/
def splitOnCharAux (c : Char) : List Char → List (List Char)
  | [] => [[]]
  | x :: xs =>
    match splitOnCharAux c xs with
    | [] => if x == c then [[], []] else [[x]]
    | y :: ys => if x == c then [] :: y :: ys else (x :: y) :: ys

/-- Go `strings.Split s (String.singleton c)` (the source only ever splits on
the one-character separator `"/"`). -/
def goSplit (s : String) (c : Char) : List String :=
  (splitOnCharAux c s.toList).map String.mk

/-! ## Asset selector (`pkg/platform/platform.go`) -/

/-- `github.Asset` (pkg/github/client.go): release asset metadata. -/
structure Asset where
  name : String
  size : Int := 0
  downloadURL : String := ""
  deriving DecidableEq, Repr

/-- `github.Release` (pkg/github/client.go). -/
structure Release where
  tagName : String
  assets : List Asset
  deriving DecidableEq, Repr

/-- `platform.Platform`: a target operating system and architecture. -/
structure Platform where
  os : String
  arch : String
  deriving DecidableEq, Repr

/-- `Platform.String()`: `fmt.Sprintf("%s-%s", p.OS, p.Arch)`. -/
def Platform.str (p : Platform) : String :=
  p.os ++ "-" ++ p.arch

/-- The ordered pattern list of `SelectAsset`:
`{os}_{arch}`, `{os}-{arch}`, `{os}`, `{os}{arch}`. -/
def patterns (p : Platform) : List String :=
  [p.os ++ "_" ++ p.arch, p.os ++ "-" ++ p.arch, p.os, p.os ++ p.arch]

/-- First pass of `SelectAsset` (platform.go lines 44-54): pattern-major,
asset-minor scan; an asset is returned only when its case-folded name contains
the pattern AND `p.Arch == "arm"` AND the name does not contain `"armv"` —
for every other architecture the inner `if` never fires and the loop
falls through. -/
def phaseAStrict (p : Platform) : List String → List Asset → Option Asset
  | [], _ => none
  | pat :: rest, assets =>
    match assets.find? (fun a =>
        goContains (goToLower a.name) pat
          && (p.arch == "arm" && !goContains (goToLower a.name) "armv")) with
    | some a => some a
    | none => phaseAStrict p rest assets

/-- The ARM retry of `SelectAsset` (platform.go lines 57-66): same scan but
accepting any containment match. -/
def phaseARetry : List String → List Asset → Option Asset
  | [], _ => none
  | pat :: rest, assets =>
    match assets.find? (fun a => goContains (goToLower a.name) pat) with
    | some a => some a
    | none => phaseARetry rest assets

/-- `matchScore` (platform.go lines 89-142): fuzzy score of an asset name
(already case-folded by the caller) against the platform. -/
def matchScore (name : String) (p : Platform) : Int :=
  let osScore : Int :=
    if p.os == "linux" then
      if goContains name "linux" then 10
      else if goContains name "gnu" then 5
      else 0
    else if p.os == "darwin" then
      if goContains name "darwin" || goContains name "macos" || goContains name "osx" then 10
      else 0
    else if p.os == "windows" then
      if goContains name "windows" || goContains name "win" then 10
      else if goHasSuffix name ".exe" then 5
      else 0
    else 0
  let archScore : Int :=
    if p.arch == "amd64" then
      if goContains name "amd64" || goContains name "x86_64" || goContains name "64" then 5
      else 0
    else if p.arch == "386" then
      if goContains name "386" || goContains name "x86" || goContains name "32" then 5
      else 0
    else if p.arch == "arm64" then
      if goContains name "arm64" || goContains name "aarch64" then 5
      else 0
    else if p.arch == "arm" then
      if goContains name "arm" && !goContains name "arm64" then
        if goContains name "armv" then 3 else 5
      else 0
    else 0
  let srcPenalty : Int :=
    if goContains name "src" || goContains name "source" then -10 else 0
  osScore + archScore + srcPenalty

/-- The fuzzy phase of `SelectAsset` (platform.go lines 68-83): running
best index and best score, initial score `0`, strictly-greater updates,
returning the best asset only when its score is positive. -/
def phaseB (p : Platform) (assets : List Asset) : Option Asset :=
  (assets.foldl
    (fun acc a =>
      let s := matchScore (goToLower a.name) p
      if s > acc.2 then (some a, s) else acc)
    ((none : Option Asset), (0 : Int))).1

/-- `Platform.SelectAsset` (platform.go lines 31-86), with `none` standing for
the `"no suitable asset found"` error. -/
def selectAsset (p : Platform) (assets : List Asset) : Option Asset :=
  match phaseAStrict p (patterns p) assets with
  | some a => some a
  | none =>
    match (if p.arch == "arm" then phaseARetry (patterns p) assets else none) with
    | some a => some a
    | none => phaseB p assets

/-- `normalizeArch` (platform.go lines 145-156). -/
def normalizeArch (arch : String) : String :=
  if arch == "x86_64" then "amd64"
  else if arch == "x86" then "386"
  else if arch == "aarch64" then "arm64"
  else arch

/-- Spec-side formalisation of claim C2's selection procedure (from the spec's
words, not from the source, for comparison with `selectAsset`): return the
first Phase A containment match whenever one exists, for every architecture,
and run Phase B scoring only when no asset contains any pattern. -/
def selectAssetSpecC2 (p : Platform) (assets : List Asset) : Option Asset :=
  match phaseARetry (patterns p) assets with
  | some a => some a
  | none => phaseB p assets

/-- Every token the scorer or the pattern matcher can react to: the OS aliases,
the arch aliases, and the bare-`.exe` Windows heuristic. -/
def osArchTokens : List String :=
  ["linux", "gnu", "darwin", "macos", "osx", "windows", "win",
   "amd64", "x86_64", "64", "386", "x86", "32", "arm64", "aarch64", "arm"]

/-- An asset name contains some OS or arch token (case-folded), or carries the
`.exe` suffix that the scorer treats as a bare-Windows marker. -/
def hasOsArchToken (name : String) : Bool :=
  osArchTokens.any (fun t => goContains (goToLower name) t)
    || goHasSuffix (goToLower name) ".exe"

/-! ### Bridge lemmas for substring containment -/

theorem infixOfAux_iff (needle hay : List Char) :
    infixOfAux needle hay = true ↔ needle <:+: hay := by
  induction hay with
  | nil =>
    simp [infixOfAux, List.isEmpty_iff]
  | cons c rest ih =>
    simp [infixOfAux, List.isPrefixOf_iff_prefix, ih, List.infix_cons_iff]

theorem goContains_iff (s sub : String) :
    goContains s sub = true ↔ sub.toList <:+: s.toList := by
  rw [goContains, infixOfAux_iff]

/-- Containment is antitone in the needle: if `s` contains `t'` and `t` is a
list-level prefix of `t'`, then `s` contains `t`. -/
theorem goContains_of_prefix {s t t' : String}
    (hpre : t.toList <+: t'.toList) (h : goContains s t' = true) :
    goContains s t = true := by
  rw [goContains_iff] at h ⊢
  exact hpre.isInfix.trans h

/-- Every Phase A pattern starts with the OS name, so containing a pattern
forces containing the OS name. -/
theorem goContains_os_of_pattern {name pat : String} {p : Platform}
    (hpat : pat ∈ patterns p) (h : goContains name pat = true) :
    goContains name p.os = true := by
  have hdata : ∀ u : String, p.os.toList <+: (p.os ++ u).toList := by
    intro u
    show p.os.data <+: (p.os ++ u).data
    rw [String.data_append]
    exact List.prefix_append _ _
  simp only [patterns, List.mem_cons, List.not_mem_nil, or_false] at hpat
  rcases hpat with rfl | rfl | rfl | rfl
  · refine goContains_of_prefix ?_ h
    show p.os.data <+: ((p.os ++ "_") ++ p.arch).data
    rw [String.data_append, String.data_append, List.append_assoc]
    exact List.prefix_append _ _
  · refine goContains_of_prefix ?_ h
    show p.os.data <+: ((p.os ++ "-") ++ p.arch).data
    rw [String.data_append, String.data_append, List.append_assoc]
    exact List.prefix_append _ _
  · exact h
  · exact goContains_of_prefix (hdata p.arch) h

/-! ### Phase A only fires for arch `arm` -/

theorem phaseAStrict_eq_none_of_not_arm {p : Platform} (h : p.arch ≠ "arm") :
    ∀ (pats : List String) (assets : List Asset), phaseAStrict p pats assets = none := by
  intro pats assets
  have harm : (p.arch == "arm") = false := beq_eq_false_iff_ne.mpr h
  induction pats with
  | nil => rfl
  | cons pat rest ih =>
    have hfind : assets.find? (fun a =>
        goContains (goToLower a.name) pat
          && (p.arch == "arm" && !goContains (goToLower a.name) "armv")) = none := by
      apply List.find?_eq_none.mpr
      intro a _
      simp [harm]
    simp [phaseAStrict, hfind, ih]

theorem selectAsset_eq_phaseB_of_not_arm {p : Platform} (h : p.arch ≠ "arm")
    (assets : List Asset) : selectAsset p assets = phaseB p assets := by
  have harm : (p.arch == "arm") = false := beq_eq_false_iff_ne.mpr h
  simp [selectAsset, phaseAStrict_eq_none_of_not_arm h, harm]

/-! ### Token-free names score nonpositively and match no pattern -/

/-- Unpacked form of `hasOsArchToken name = false`. -/
theorem no_token_unpack {name : String} (h : hasOsArchToken name = false) :
    goContains (goToLower name) "linux" = false ∧
    goContains (goToLower name) "gnu" = false ∧
    goContains (goToLower name) "darwin" = false ∧
    goContains (goToLower name) "macos" = false ∧
    goContains (goToLower name) "osx" = false ∧
    goContains (goToLower name) "windows" = false ∧
    goContains (goToLower name) "win" = false ∧
    goContains (goToLower name) "amd64" = false ∧
    goContains (goToLower name) "x86_64" = false ∧
    goContains (goToLower name) "64" = false ∧
    goContains (goToLower name) "386" = false ∧
    goContains (goToLower name) "x86" = false ∧
    goContains (goToLower name) "32" = false ∧
    goContains (goToLower name) "arm64" = false ∧
    goContains (goToLower name) "aarch64" = false ∧
    goContains (goToLower name) "arm" = false ∧
    goHasSuffix (goToLower name) ".exe" = false := by
  simp [hasOsArchToken, osArchTokens] at h
  tauto

theorem matchScore_nonpos {name : String} {p : Platform}
    (h : hasOsArchToken name = false)
    (hos : p.os = "linux" ∨ p.os = "darwin" ∨ p.os = "windows") :
    matchScore (goToLower name) p ≤ 0 := by
  obtain ⟨h1, h2, h3, h4, h5, h6, h7, h8, h9, h10, h11, h12, h13, h14, h15, h16, h17⟩ :=
    no_token_unpack h
  unfold matchScore
  rcases hos with hn | hn | hn <;>
    simp [hn, h1, h2, h3, h4, h5, h6, h7, h8, h9, h10, h11, h12, h13, h14, h15, h16, h17] <;>
    split_ifs <;> simp_all

theorem phaseB_eq_none {p : Platform} {assets : List Asset}
    (h : ∀ a ∈ assets, matchScore (goToLower a.name) p ≤ 0) :
    phaseB p assets = none := by
  unfold phaseB
  induction assets with
  | nil => rfl
  | cons a as ih =>
    have ha : ¬ (matchScore (goToLower a.name) p > (0 : Int)) := by
      have := h a (List.mem_cons_self a as)
      omega
    rw [List.foldl_cons]
    dsimp only
    rw [if_neg ha]
    exact ih (fun b hb => h b (List.mem_cons_of_mem a hb))

theorem phaseARetry_eq_none {p : Platform} {assets : List Asset}
    (h : ∀ a ∈ assets, goContains (goToLower a.name) p.os = false) :
    phaseARetry (patterns p) assets = none := by
  have hfind : ∀ pat ∈ patterns p, assets.find?
      (fun a => goContains (goToLower a.name) pat) = none := by
    intro pat hpat
    apply List.find?_eq_none.mpr
    intro a ha
    simp only [Bool.not_eq_true]
    cases hc : goContains (goToLower a.name) pat
    · rfl
    · have := goContains_os_of_pattern hpat hc
      rw [h a ha] at this
      exact absurd this (by simp)
  revert hfind
  generalize patterns p = pats
  intro hfind
  induction pats with
  | nil => rfl
  | cons pat rest ih =>
    rw [phaseARetry, hfind pat (List.mem_cons_self _ _)]
    exact ih (fun q hq => hfind q (List.mem_cons_of_mem _ hq))

theorem phaseAStrict_eq_none_of_no_os {p : Platform} {assets : List Asset}
    (h : ∀ a ∈ assets, goContains (goToLower a.name) p.os = false) :
    phaseAStrict p (patterns p) assets = none := by
  have hfind : ∀ pat ∈ patterns p, assets.find? (fun a =>
      goContains (goToLower a.name) pat
        && (p.arch == "arm" && !goContains (goToLower a.name) "armv")) = none := by
    intro pat hpat
    apply List.find?_eq_none.mpr
    intro a ha
    cases hc : goContains (goToLower a.name) pat
    · simp [hc]
    · have := goContains_os_of_pattern hpat hc
      rw [h a ha] at this
      exact absurd this (by simp)
  revert hfind
  generalize patterns p = pats
  intro hfind
  induction pats with
  | nil => rfl
  | cons pat rest ih =>
    rw [phaseAStrict, hfind pat (List.mem_cons_self _ _)]
    exact ih (fun q hq => hfind q (List.mem_cons_of_mem _ hq))

/-! ### Claim theorems for the asset selector -/

/-- C2 counterexample: for platform linux/amd64 and assets
`["app-linux-src", "app-amd64"]`, a Phase A containment match exists
(`"app-linux-src"` contains the pattern `"linux"`), yet the code ignores it
and Phase B scoring picks `"app-amd64"` instead — the Phase A loops return
a match only for arch `arm`, so the claimed procedure disagrees with the
code here. -/
theorem c2_counterexample :
    selectAsset ⟨"linux", "amd64"⟩ [⟨"app-linux-src", 0, ""⟩, ⟨"app-amd64", 0, ""⟩]
      = some ⟨"app-amd64", 0, ""⟩
    ∧ selectAssetSpecC2 ⟨"linux", "amd64"⟩ [⟨"app-linux-src", 0, ""⟩, ⟨"app-amd64", 0, ""⟩]
      = some ⟨"app-linux-src", 0, ""⟩
    ∧ selectAsset ⟨"linux", "amd64"⟩ [⟨"app-linux-src", 0, ""⟩, ⟨"app-amd64", 0, ""⟩]
      ≠ selectAssetSpecC2 ⟨"linux", "amd64"⟩
          [⟨"app-linux-src", 0, ""⟩, ⟨"app-amd64", 0, ""⟩] := by
  refine ⟨by decide, by decide, by decide⟩

/-- C2 (amended): the Phase A containment loops return a match only when the
platform's arch is `"arm"` (first preferring names without `"armv"`, then
retrying accepting them); for every other architecture Phase A never returns —
even when a containment match exists — and the Phase B fallback scoring alone
decides the selection. -/
theorem c2_amended :
    (∀ (p : Platform) (assets : List Asset), p.arch ≠ "arm" →
      selectAsset p assets = phaseB p assets)
    ∧ (∀ (p : Platform) (assets : List Asset) (a : Asset),
        phaseAStrict p (patterns p) assets = some a →
        selectAsset p assets = some a) := by
  constructor
  · intro p assets h
    exact selectAsset_eq_phaseB_of_not_arm h assets
  · intro p assets a h
    simp [selectAsset, h]

/-- C2 amended, witnessed at a concrete non-arm platform and asset list. -/
theorem c2_amended_witness :
    selectAsset ⟨"linux", "amd64"⟩ [⟨"app-linux-src", 0, ""⟩, ⟨"app-amd64", 0, ""⟩]
      = phaseB ⟨"linux", "amd64"⟩ [⟨"app-linux-src", 0, ""⟩, ⟨"app-amd64", 0, ""⟩] :=
  c2_amended.1 ⟨"linux", "amd64"⟩ _ (by decide)

/-- C3: asset selection is a pure function of (platform, asset names); it
returns `"app-linux-amd64"` for linux/amd64 on the first example list,
`"app-macos-arm64"` for darwin/arm64 on the second, and `none`
(NoSuitableAsset) whenever no asset name contains any OS or arch token,
for every platform with one of the supported OS values. -/
theorem c3_selectAsset_examples_and_no_token :
    (selectAsset ⟨"linux", "amd64"⟩
        [⟨"app-windows-amd64.exe", 0, ""⟩, ⟨"app-linux-amd64", 0, ""⟩,
          ⟨"app-darwin-amd64", 0, ""⟩]
      = some ⟨"app-linux-amd64", 0, ""⟩)
    ∧ (selectAsset ⟨"darwin", "arm64"⟩
        [⟨"app-macos-universal", 0, ""⟩, ⟨"app-macos-x86_64", 0, ""⟩,
          ⟨"app-macos-arm64", 0, ""⟩]
      = some ⟨"app-macos-arm64", 0, ""⟩)
    ∧ (∀ (p : Platform) (assets : List Asset),
        (p.os = "linux" ∨ p.os = "darwin" ∨ p.os = "windows") →
        (∀ a ∈ assets, hasOsArchToken a.name = false) →
        selectAsset p assets = none) := by
  refine ⟨by decide, by decide, ?_⟩
  intro p assets hos htok
  have hosfree : ∀ a ∈ assets, goContains (goToLower a.name) p.os = false := by
    intro a ha
    obtain ⟨h1, _, h3, _, _, h6, _⟩ := no_token_unpack (htok a ha)
    rcases hos with hn | hn | hn <;> rw [hn] <;> assumption
  rw [selectAsset, phaseAStrict_eq_none_of_no_os hosfree]
  have hretry := phaseARetry_eq_none hosfree
  have hb := phaseB_eq_none
    (fun a ha => matchScore_nonpos (htok a ha) hos)
  cases harm : (p.arch == "arm") <;> simp [harm, hretry, hb]

/-- C3 witness: the universal no-token clause applied at a concrete platform
and token-free asset list. -/
theorem c3_witness :
    selectAsset ⟨"linux", "amd64"⟩ [⟨"app", 0, ""⟩, ⟨"README.md", 0, ""⟩] = none :=
  c3_selectAsset_examples_and_no_token.2.2 ⟨"linux", "amd64"⟩
    [⟨"app", 0, ""⟩, ⟨"README.md", 0, ""⟩] (Or.inl rfl) (by decide)

/-! ## Metadata store (`pkg/storage/libsql.go`)

The `packages` table is a list of rows with primary key (owner, repo).
SQL call times (`time.Now()`) are explicit `Nat` parameters. -/

/-- `storage.Package`: one row of the `packages` table (libsql.go schema). -/
structure Package where
  owner : String
  repo : String
  version : String
  binary : String
  frozen : Bool
  platform : String
  installedAt : Nat := 0
  updatedAt : Nat := 0
  deriving DecidableEq, Repr

/-- The database: the rows of the `packages` table, in insertion order. -/
abbrev Db := List Package

/-- Errors surfaced by the store. `conflict` is the INSERT primary-key
violation, `notFound` the zero-rows-affected error of UPDATE/DELETE, and
`ioFailure` any other database I/O error (used for fault injection by the
installer model; the pure row-level operations never produce it). -/
inductive StoreErr
  | conflict
  | notFound
  | ioFailure
  deriving DecidableEq, Repr

/-- `WHERE owner = ? AND repo = ?`. -/
def keyMatches (owner repo : String) (r : Package) : Bool :=
  r.owner == owner && r.repo == repo

/-- `GetPackage` (libsql.go lines 72-91): `sql.ErrNoRows` becomes an explicit
`none` with no error. -/
def getPackage (db : Db) (owner repo : String) : Option Package :=
  db.find? (keyMatches owner repo)

/-- `AddPackage` (libsql.go lines 51-69): INSERT sets both timestamps to the
call time; the PRIMARY KEY (owner, repo) makes the insert fail when a row with
that key exists. -/
def addPackage (db : Db) (pkg : Package) (now : Nat) : Except StoreErr Db :=
  if (getPackage db pkg.owner pkg.repo).isSome then .error .conflict
  else .ok (db ++ [{ pkg with installedAt := now, updatedAt := now }])

/-- `UpdatePackage` (libsql.go lines 127-153): UPDATE of version, binary,
frozen, platform and updated_at by key; zero rows affected is the
"package not found" error. `installed_at` is not touched. -/
def updatePackage (db : Db) (pkg : Package) (now : Nat) : Except StoreErr Db :=
  if (getPackage db pkg.owner pkg.repo).isSome then
    .ok (db.map (fun r =>
      if keyMatches pkg.owner pkg.repo r then
        { r with version := pkg.version, binary := pkg.binary,
                 frozen := pkg.frozen, platform := pkg.platform, updatedAt := now }
      else r))
  else .error .notFound

/-- `DeletePackage` (libsql.go lines 156-174): DELETE by key; zero rows
affected is the "package not found" error. -/
def deletePackage (db : Db) (owner repo : String) : Except StoreErr Db :=
  if (getPackage db owner repo).isSome then
    .ok (db.filter (fun r => !keyMatches owner repo r))
  else .error .notFound

/-! ## Worlds, effects and fault injection for the transition engine -/

/-- Observable effects of a transition, in program order.  `dbGet` is a store
lookup; `netLatestRelease` and `netDownload` are the network calls; the `fs*`
constructors are the filesystem operations the installer attempts. -/
inductive Ev
  | dbGet (owner repo : String)
  | dbAdd (owner repo : String)
  | dbUpdate (owner repo : String)
  | dbDelete (owner repo : String)
  | netLatestRelease (owner repo : String)
  | netDownload (url dest : String)
  | fsMkdirAll (dir : String)
  | fsChmod (path : String)
  | fsSymlink (target path : String)
  | fsRemove (path : String)
  | fsRename (src dst : String)
  deriving DecidableEq, Repr

/-- The filesystem: regular files and symlinks (path, target). -/
structure Fs where
  files : List String
  links : List (String × String)
  deriving DecidableEq, Repr

/-- A path exists (as file or symlink). -/
def Fs.here (fs : Fs) (path : String) : Bool :=
  fs.files.contains path || fs.links.any (fun l => l.1 == path)

def Fs.removePath (fs : Fs) (p : String) : Fs :=
  { files := fs.files.filter (fun q => q != p),
    links := fs.links.filter (fun l => l.1 != p) }

def Fs.addFile (fs : Fs) (p : String) : Fs :=
  { fs with files := fs.files ++ [p] }

def Fs.addLink (fs : Fs) (path target : String) : Fs :=
  { fs with links := fs.links ++ [(path, target)] }

/-- The shared mutable state of the engine: metadata store plus filesystem. -/
structure World where
  db : Db
  fs : Fs
  deriving DecidableEq, Repr

/-- Fault injection: which fallible effects fail during the run.  Paths in
`removeFailsAt` make `os.Remove` fail with a non-`IsNotExist` error. -/
structure Faults where
  dbGetFails : Bool := false
  dbAddFails : Bool := false
  dbUpdateFails : Bool := false
  dbDeleteFails : Bool := false
  downloadFails : Bool := false
  chmodFails : Bool := false
  symlinkFails : Bool := false
  ensureBinActualFails : Bool := false
  ensureBinFails : Bool := false
  removeFailsAt : List String := []
  userConfirms : Bool := true
  deriving DecidableEq, Repr

/-- Outcome of `os.Remove`. -/
inductive RmResult
  | ok
  | notExist
  | failed
  deriving DecidableEq, Repr

/-- `os.Remove`: `IsNotExist` when the path is absent; injected non-notExist
failure leaves the filesystem unchanged; otherwise the path is removed. -/
def osRemove (f : Faults) (fs : Fs) (path : String) : RmResult × Fs :=
  if !fs.here path then (.notExist, fs)
  else if f.removeFailsAt.contains path then (.failed, fs)
  else (.ok, fs.removePath path)

/-- `filepath.Join` for the two-component joins the engine performs. -/
def pathJoin (a b : String) : String := a ++ "/" ++ b

/-- `config.Config` (pkg/config): only the root directory matters here. -/
structure Config where
  rootDir : String
  deriving DecidableEq, Repr

structure Directories where
  bin : String
  binActual : String
  deriving DecidableEq, Repr

/-- `Config.GetDirectories` (pkg/config): `root/bin` and `root/bin/actual`. -/
def getDirectories (c : Config) : Directories :=
  { bin := pathJoin c.rootDir "bin",
    binActual := pathJoin (pathJoin c.rootDir "bin") "actual" }

/-- `installer.Options`. -/
structure Options where
  nonInteractive : Bool := false
  freeze : Bool := false
  dryRun : Bool := false
  deriving DecidableEq, Repr

/-- The GitHub collaborator's answer for `GetLatestRelease`. -/
structure Gh where
  latestRelease : Except Unit Release

/-- The unique binary-store name `{owner}-{repo}-{tag}`, with `.exe` appended
when the asset name (case-folded) ends in `.exe`. -/
def binaryNameFor (owner repo tag assetName : String) : String :=
  owner ++ "-" ++ repo ++ "-" ++ tag
    ++ (if goHasSuffix (goToLower assetName) ".exe" then ".exe" else "")

/-- `filepath.Join(dirs.BinActual, name)`. -/
def binaryPathFor (cfg : Config) (name : String) : String :=
  pathJoin (getDirectories cfg).binActual name

/-- `filepath.Join(dirs.Bin, repo)`, with `.exe` appended on Windows. -/
def symlinkPathFor (cfg : Config) (repo : String) (plat : Platform) : String :=
  pathJoin (getDirectories cfg).bin repo ++ (if plat.os == "windows" then ".exe" else "")

/-- Errors returned by `installer.Install`, keeping the wrapped store error on
a failed insert (the Go code wraps it with `%w`, so the original error is what
the caller sees). -/
inductive InstallErr
  | invalidRepoName
  | storeCheckFailed
  | alreadyInstalled
  | releaseFetchFailed
  | noSuitableAsset
  | cancelled
  | binDirFailed
  | symlinkDirFailed
  | downloadFailed
  | chmodFailed
  | symlinkFailed
  | dbAddFailed (underlying : StoreErr)
  deriving DecidableEq, Repr

/-- The installer's `store.AddPackage` call: the pure row semantics, plus the
injected I/O failure. -/
def storeAdd (f : Faults) (db : Db) (pkg : Package) (now : Nat) : Except StoreErr Db :=
  if f.dbAddFails then .error .ioFailure else addPackage db pkg now

/-- `installer.Install` (installer.go lines 45-159), returning the result, the
final world, and the trace of effects in program order.  The interactive
prompt's answer and all effect outcomes come from the `Faults` oracle.
(The source's inner `if !opts.DryRun` around download/chmod/symlink/insert is
redundant — the dry-run branch has already returned — and is dropped.) -/
def install (repoName : String) (cfg : Config) (plat : Platform) (w : World)
    (gh : Gh) (f : Faults) (opts : Options) (now : Nat) :
    Except InstallErr Unit × World × List Ev :=
  match goSplit repoName '/' with
  | [owner, repo] =>
    -- store.GetPackage: the already-installed check
    let tr0 := [Ev.dbGet owner repo]
    if f.dbGetFails then (.error .storeCheckFailed, w, tr0)
    else if (getPackage w.db owner repo).isSome then (.error .alreadyInstalled, w, tr0)
    else if opts.dryRun then (.ok (), w, tr0)
    else
      match gh.latestRelease with
      | .error _ => (.error .releaseFetchFailed, w, tr0 ++ [Ev.netLatestRelease owner repo])
      | .ok release =>
        let tr1 := tr0 ++ [Ev.netLatestRelease owner repo]
        match selectAsset plat release.assets with
        | none => (.error .noSuitableAsset, w, tr1)
        | some asset =>
          if !opts.nonInteractive && !f.userConfirms then (.error .cancelled, w, tr1)
          else
            let binaryName := binaryNameFor owner repo release.tagName asset.name
            let dirs := getDirectories cfg
            let tr2 := tr1 ++ [Ev.fsMkdirAll dirs.binActual]
            if f.ensureBinActualFails then (.error .binDirFailed, w, tr2)
            else
              let tr3 := tr2 ++ [Ev.fsMkdirAll dirs.bin]
              if f.ensureBinFails then (.error .symlinkDirFailed, w, tr3)
              else
                let binaryPath := binaryPathFor cfg binaryName
                let symlinkPath := symlinkPathFor cfg repo plat
                let tr4 := tr3 ++ [Ev.netDownload asset.downloadURL binaryPath]
                if f.downloadFails then (.error .downloadFailed, w, tr4)
                else
                  let fs1 := (w.fs.removePath binaryPath).addFile binaryPath
                  let tr5 := tr4 ++ [Ev.fsChmod binaryPath]
                  if f.chmodFails then (.error .chmodFailed, { w with fs := fs1 }, tr5)
                  else
                    let tr6 := tr5 ++ [Ev.fsSymlink binaryPath symlinkPath]
                    if fs1.here symlinkPath || f.symlinkFails then
                      -- clean up on failure: os.Remove(binaryPath), error discarded
                      let fs2 := (osRemove f fs1 binaryPath).2
                      (.error .symlinkFailed, { w with fs := fs2 },
                        tr6 ++ [Ev.fsRemove binaryPath])
                    else
                      let fs2 := fs1.addLink symlinkPath binaryPath
                      let pkg : Package :=
                        ⟨owner, repo, release.tagName, binaryName, opts.freeze, plat.str, 0, 0⟩
                      let tr7 := tr6 ++ [Ev.dbAdd owner repo]
                      match storeAdd f w.db pkg now with
                      | .error e =>
                        -- clean up on failure: symlink then binary, errors discarded
                        let fs3 := (osRemove f fs2 symlinkPath).2
                        let fs4 := (osRemove f fs3 binaryPath).2
                        (.error (.dbAddFailed e), { w with fs := fs4 },
                          tr7 ++ [Ev.fsRemove symlinkPath, Ev.fsRemove binaryPath])
                      | .ok db1 => (.ok (), { db := db1, fs := fs2 }, tr7)
  | _ => (.error .invalidRepoName, w, [])

/-- Errors returned by `installer.Update`. -/
inductive UpdateErr
  | releaseFetchFailed
  | noSuitableAsset
  | cancelled
  | binDirFailed
  | symlinkDirFailed
  | downloadFailed
  | chmodFailed
  | removeOldSymlinkFailed
  | symlinkFailed
  | dbUpdateFailed (underlying : StoreErr)
  deriving DecidableEq, Repr

/-- The installer's `store.UpdatePackage` call with injected I/O failure. -/
def storeUpdate (f : Faults) (db : Db) (pkg : Package) (now : Nat) : Except StoreErr Db :=
  if f.dbUpdateFails then .error .ioFailure else updatePackage db pkg now

/-- `installer.Update` (installer.go lines 161-268).  The frozen check is the
very first statement; the symlink is replaced by `os.Remove` (any error,
including a missing symlink, aborts) followed by `os.Symlink`; the old binary
is removed best-effort after the record update. -/
def update (pkg : Package) (cfg : Config) (plat : Platform) (w : World)
    (gh : Gh) (f : Faults) (opts : Options) (now : Nat) :
    Except UpdateErr Unit × World × List Ev :=
  if pkg.frozen then (.ok (), w, [])
  else if opts.dryRun then (.ok (), w, [])
  else
    match gh.latestRelease with
    | .error _ => (.error .releaseFetchFailed, w, [Ev.netLatestRelease pkg.owner pkg.repo])
    | .ok release =>
      let tr1 := [Ev.netLatestRelease pkg.owner pkg.repo]
      if release.tagName == pkg.version then (.ok (), w, tr1)
      else
        match selectAsset plat release.assets with
        | none => (.error .noSuitableAsset, w, tr1)
        | some asset =>
          if !opts.nonInteractive && !f.userConfirms then (.error .cancelled, w, tr1)
          else
            let binaryName := binaryNameFor pkg.owner pkg.repo release.tagName asset.name
            let dirs := getDirectories cfg
            let tr2 := tr1 ++ [Ev.fsMkdirAll dirs.binActual]
            if f.ensureBinActualFails then (.error .binDirFailed, w, tr2)
            else
              let tr3 := tr2 ++ [Ev.fsMkdirAll dirs.bin]
              if f.ensureBinFails then (.error .symlinkDirFailed, w, tr3)
              else
                let oldBinaryPath := binaryPathFor cfg pkg.binary
                let newBinaryPath := binaryPathFor cfg binaryName
                let symlinkPath := symlinkPathFor cfg pkg.repo plat
                let tr4 := tr3 ++ [Ev.netDownload asset.downloadURL newBinaryPath]
                if f.downloadFails then (.error .downloadFailed, w, tr4)
                else
                  let fs1 := (w.fs.removePath newBinaryPath).addFile newBinaryPath
                  let tr5 := tr4 ++ [Ev.fsChmod newBinaryPath]
                  if f.chmodFails then
                    let fs2 := (osRemove f fs1 newBinaryPath).2
                    (.error .chmodFailed, { w with fs := fs2 },
                      tr5 ++ [Ev.fsRemove newBinaryPath])
                  else
                    -- replace the symlink: delete the old one, then create the new one
                    let tr6 := tr5 ++ [Ev.fsRemove symlinkPath]
                    match osRemove f fs1 symlinkPath with
                    | (RmResult.ok, fs2) =>
                      let tr7 := tr6 ++ [Ev.fsSymlink newBinaryPath symlinkPath]
                      if fs2.here symlinkPath || f.symlinkFails then
                        let fs3 := (osRemove f fs2 newBinaryPath).2
                        (.error .symlinkFailed, { w with fs := fs3 },
                          tr7 ++ [Ev.fsRemove newBinaryPath])
                      else
                        let fs3 := fs2.addLink symlinkPath newBinaryPath
                        let pkg2 := { pkg with version := release.tagName,
                                               binary := binaryName, platform := plat.str }
                        let tr8 := tr7 ++ [Ev.dbUpdate pkg.owner pkg.repo]
                        match storeUpdate f w.db pkg2 now with
                        | .error e =>
                          let fs4 := (osRemove f fs3 symlinkPath).2
                          let fs5 := (osRemove f fs4 newBinaryPath).2
                          (.error (.dbUpdateFailed e), { w with fs := fs5 },
                            tr8 ++ [Ev.fsRemove symlinkPath, Ev.fsRemove newBinaryPath])
                        | .ok db1 =>
                          -- best-effort removal of the old binary, error discarded
                          let fs4 := (osRemove f fs3 oldBinaryPath).2
                          (.ok (), { db := db1, fs := fs4 },
                            tr8 ++ [Ev.fsRemove oldBinaryPath])
                    | (_, fs2) =>
                      -- any os.Remove error (including IsNotExist) aborts the update
                      let fs3 := (osRemove f fs2 newBinaryPath).2
                      (.error .removeOldSymlinkFailed, { w with fs := fs3 },
                        tr6 ++ [Ev.fsRemove newBinaryPath])

/-- Errors returned by `installer.Remove`. -/
inductive RemoveErr
  | symlinkRemoveFailed
  | binaryRemoveFailed
  | dbDeleteFailed (underlying : StoreErr)
  deriving DecidableEq, Repr

/-- The installer's `store.DeletePackage` call with injected I/O failure. -/
def storeDelete (f : Faults) (db : Db) (owner repo : String) : Except StoreErr Db :=
  if f.dbDeleteFails then .error .ioFailure else deletePackage db owner repo

/-- `installer.Remove` (installer.go lines 270-304): symlink first (ignoring
`IsNotExist`), then the binary (ignoring `IsNotExist`), then the store record
(whose absence is an error). -/
def remove (pkg : Package) (cfg : Config) (plat : Platform) (w : World)
    (f : Faults) (opts : Options) : Except RemoveErr Unit × World × List Ev :=
  if opts.dryRun then (.ok (), w, [])
  else
    let binaryPath := binaryPathFor cfg pkg.binary
    let symlinkPath := symlinkPathFor cfg pkg.repo plat
    let tr1 := [Ev.fsRemove symlinkPath]
    match osRemove f w.fs symlinkPath with
    | (RmResult.failed, fs1) => (.error .symlinkRemoveFailed, { w with fs := fs1 }, tr1)
    | (_, fs1) =>
      let tr2 := tr1 ++ [Ev.fsRemove binaryPath]
      match osRemove f fs1 binaryPath with
      | (RmResult.failed, fs2) => (.error .binaryRemoveFailed, { w with fs := fs2 }, tr2)
      | (_, fs2) =>
        let tr3 := tr2 ++ [Ev.dbDelete pkg.owner pkg.repo]
        match storeDelete f w.db pkg.owner pkg.repo with
        | .error e => (.error (.dbDeleteFailed e), { w with fs := fs2 }, tr3)
        | .ok db1 => (.ok (), { db := db1, fs := fs2 }, tr3)

/-! ## Repository resolver (`pkg/selector`, `searchRepositories`) -/

/-- The three kinds of search the resolver issues against the GitHub client:
`SearchRepositories` with a raw query, `SearchRepositoriesByName`, and
`SearchRepositoriesByUser`. -/
inductive Query
  | search (q : String)
  | byName (s : String)
  | byUser (s : String)
  deriving DecidableEq, Repr

/-- `github.Repository`: what the resolver hands on. -/
structure Repository where
  fullName : String
  stars : Nat := 0
  deriving DecidableEq, Repr

/-- `github.SearchResult`: total count plus ranked items. -/
structure SearchResult where
  totalCount : Nat
  items : List Repository
  deriving DecidableEq, Repr

/-- Resolution failure: upstream (network/API) error, or no repository found. -/
inductive SearchErr
  | upstream
  | notFound
  deriving DecidableEq, Repr

/-- Steps 4-5 of `searchRepositories` (part_007 lines 157-169): the by-user
fallback when the running result is empty, then the final zero-check. -/
def searchFinish (gh : Query → Except Unit SearchResult) (input : String)
    (res : SearchResult) (tr : List Query) :
    Except SearchErr SearchResult × List Query :=
  if res.totalCount == 0 then
    match gh (Query.byUser input) with
    | .error _ => (.error .upstream, tr ++ [Query.byUser input])
    | .ok res4 =>
      if res4.totalCount == 0 then (.error .notFound, tr ++ [Query.byUser input])
      else (.ok res4, tr ++ [Query.byUser input])
  else (.ok res, tr)

/-- Step 3 of `searchRepositories` (part_007 lines 149-155): the by-name
fallback, entered when the slash branch produced no result yet
(`result == nil || result.TotalCount == 0`). -/
def searchByNameStep (gh : Query → Except Unit SearchResult) (input : String)
    (r : Option SearchResult) (tr : List Query) :
    Except SearchErr SearchResult × List Query :=
  match r with
  | some res =>
    if res.totalCount == 0 then
      match gh (Query.byName input) with
      | .error _ => (.error .upstream, tr ++ [Query.byName input])
      | .ok res3 => searchFinish gh input res3 (tr ++ [Query.byName input])
    else searchFinish gh input res tr
  | none =>
    match gh (Query.byName input) with
    | .error _ => (.error .upstream, tr ++ [Query.byName input])
    | .ok res3 => searchFinish gh input res3 (tr ++ [Query.byName input])

/-- `searchRepositories` (part_007 lines 124-170): the UI-free search flow,
returning the outcome and the queries attempted, in order.  The slash branch
runs only when the input contains `"/"` AND splits into exactly two parts. -/
def searchRepositories (gh : Query → Except Unit SearchResult) (input : String) :
    Except SearchErr SearchResult × List Query :=
  if goContains input "/" then
    match goSplit input '/' with
    | [owner, name] =>
      let q1 := Query.search ("repo:" ++ owner ++ "/" ++ name)
      match gh q1 with
      | .error _ => (.error .upstream, [q1])
      | .ok res1 =>
        if res1.totalCount == 1 then (.ok res1, [q1])
        else
          let q2 := Query.search ("user:" ++ owner ++ " " ++ name ++ " in:name")
          match gh q2 with
          | .error _ => (.error .upstream, [q1, q2])
          | .ok res2 => searchByNameStep gh input (some res2) [q1, q2]
    | _ => searchByNameStep gh input none []
  else searchByNameStep gh input none []

/-- Claim C7 as stated, formalised: whenever the input merely CONTAINS `"/"`,
the first query the resolver attempts is the exact-match `repo:` search. -/
def c7ExactMatchFirst (gh : Query → Except Unit SearchResult) (input : String) : Prop :=
  goContains input "/" = true →
  ∃ q, (searchRepositories gh input).2.head? = some (Query.search q)

/-! ## List helper lemmas -/

theorem find?_append_none {α : Type} (p : α → Bool) {l1 : List α} (l2 : List α)
    (h : l1.find? p = none) : (l1 ++ l2).find? p = l2.find? p := by
  induction l1 with
  | nil => simp
  | cons a l ih =>
    by_cases hp : p a = true
    · rw [List.find?_cons_of_pos _ hp] at h
      exact absurd h (by simp)
    · rw [List.find?_cons_of_neg _ hp] at h
      rw [List.cons_append, List.find?_cons_of_neg _ hp]
      exact ih h

theorem find?_map_comm {α : Type} (f : α → α) (p : α → Bool) (l : List α)
    (hf : ∀ r, p (f r) = p r) : (l.map f).find? p = (l.find? p).map f := by
  induction l with
  | nil => simp
  | cons a l ih =>
    by_cases hp : p a = true
    · rw [List.map_cons, List.find?_cons_of_pos _ (by rw [hf]; exact hp),
          List.find?_cons_of_pos _ hp]
      rfl
    · rw [List.map_cons, List.find?_cons_of_neg _ (by rw [hf]; exact hp),
          List.find?_cons_of_neg _ hp]
      exact ih

/-! ## Store lemmas and the claims about the metadata store -/

theorem keyMatches_iff {owner repo : String} {r : Package} :
    keyMatches owner repo r = true ↔ r.owner = owner ∧ r.repo = repo := by
  simp [keyMatches]

theorem getPackage_eq_none {db : Db} {owner repo : String}
    (h : ∀ r ∈ db, ¬(r.owner = owner ∧ r.repo = repo)) :
    getPackage db owner repo = none := by
  apply List.find?_eq_none.mpr
  intro r hr
  simp only [Bool.not_eq_true]
  cases hk : keyMatches owner repo r
  · rfl
  · exact absurd (keyMatches_iff.mp hk) (h r hr)

theorem getPackage_isSome_of_mem {db : Db} {owner repo : String} {r : Package}
    (hr : r ∈ db) (ho : r.owner = owner) (hrepo : r.repo = repo) :
    (getPackage db owner repo).isSome = true := by
  rcases List.find?_isSome.mpr ⟨r, hr, keyMatches_iff.mpr ⟨ho, hrepo⟩⟩ with h
  exact h

/-- C8: `AddPackage` fails when a record with the key already exists;
`GetPackage` on a missing key returns an explicit `none` and no error;
`UpdatePackage` and `DeletePackage` on a missing key each return an error. -/
theorem c8_store_crud_errors :
    (∀ (db : Db) (pkg : Package) (now : Nat),
      (∃ r ∈ db, r.owner = pkg.owner ∧ r.repo = pkg.repo) →
      addPackage db pkg now = .error .conflict)
    ∧ (∀ (db : Db) (owner repo : String),
      (∀ r ∈ db, ¬(r.owner = owner ∧ r.repo = repo)) →
      getPackage db owner repo = none)
    ∧ (∀ (db : Db) (pkg : Package) (now : Nat),
      (∀ r ∈ db, ¬(r.owner = pkg.owner ∧ r.repo = pkg.repo)) →
      updatePackage db pkg now = .error .notFound)
    ∧ (∀ (db : Db) (owner repo : String),
      (∀ r ∈ db, ¬(r.owner = owner ∧ r.repo = repo)) →
      deletePackage db owner repo = .error .notFound) := by
  refine ⟨?_, ?_, ?_, ?_⟩
  · intro db pkg now ⟨r, hr, ho, hrepo⟩
    rw [addPackage, if_pos (getPackage_isSome_of_mem hr ho hrepo)]
  · intro db owner repo h
    exact getPackage_eq_none h
  · intro db pkg now h
    rw [updatePackage, if_neg (by rw [getPackage_eq_none h]; simp)]
  · intro db owner repo h
    rw [deletePackage, if_neg (by rw [getPackage_eq_none h]; simp)]

/-- A concrete installed-package row used by the store witnesses. -/
def samplePkg : Package := ⟨"o", "r", "v1", "o-r-v1", false, "linux-amd64", 0, 0⟩

/-- C8 witness: the four clauses at concrete databases and keys. -/
theorem c8_witness :
    addPackage [samplePkg] samplePkg 5 = .error .conflict
    ∧ getPackage [] "o" "r" = none
    ∧ updatePackage [] samplePkg 5 = .error .notFound
    ∧ deletePackage [] "o" "r" = .error .notFound :=
  ⟨c8_store_crud_errors.1 [samplePkg] samplePkg 5
      ⟨samplePkg, by simp, rfl, rfl⟩,
   c8_store_crud_errors.2.1 [] "o" "r" (by simp),
   c8_store_crud_errors.2.2.1 [] samplePkg 5 (by simp),
   c8_store_crud_errors.2.2.2 [] "o" "r" (by simp)⟩

/-- C9: Add-then-Get returns every caller field unchanged with both
timestamps server-assigned to the Add call time; a later successful
Update-then-Get reflects the new version/frozen/binary fields, keeps
installed_at, and carries a strictly later updated_at than the row Get
returned after Add. -/
theorem c9_store_roundtrip :
    ∀ (db : Db) (pkg : Package) (t1 : Nat) (db1 : Db),
      addPackage db pkg t1 = .ok db1 →
      (getPackage db1 pkg.owner pkg.repo
        = some { pkg with installedAt := t1, updatedAt := t1 })
      ∧ (∀ (pkg2 : Package) (t2 : Nat) (db2 : Db),
          pkg2.owner = pkg.owner → pkg2.repo = pkg.repo → t1 < t2 →
          updatePackage db1 pkg2 t2 = .ok db2 →
          getPackage db2 pkg.owner pkg.repo
            = some { pkg2 with installedAt := t1, updatedAt := t2 }
          ∧ (∃ r1 r2, getPackage db1 pkg.owner pkg.repo = some r1
              ∧ getPackage db2 pkg.owner pkg.repo = some r2
              ∧ r1.updatedAt < r2.updatedAt)) := by
  intro db pkg t1 db1 hadd
  rw [addPackage] at hadd
  by_cases hex : (getPackage db pkg.owner pkg.repo).isSome = true
  · rw [if_pos hex] at hadd
    exact absurd hadd (by simp)
  · rw [if_neg hex] at hadd
    have hnone : getPackage db pkg.owner pkg.repo = none := by
      cases hg : getPackage db pkg.owner pkg.repo
      · rfl
      · exact absurd (by rw [hg]; rfl) hex
    have hdb1 : db1 = db ++ [{ pkg with installedAt := t1, updatedAt := t1 }] := by
      cases hadd
      rfl
    subst hdb1
    have hkeynew : keyMatches pkg.owner pkg.repo
        { pkg with installedAt := t1, updatedAt := t1 } = true := by
      simp [keyMatches]
    have hget1 : getPackage
        (db ++ [{ pkg with installedAt := t1, updatedAt := t1 }]) pkg.owner pkg.repo
        = some { pkg with installedAt := t1, updatedAt := t1 } := by
      rw [getPackage, find?_append_none _ _ hnone, List.find?_cons_of_pos _ hkeynew]
    refine ⟨hget1, ?_⟩
    intro pkg2 t2 db2 ho hr ht hupd
    rw [updatePackage, ho, hr] at hupd
    rw [if_pos (by rw [hget1]; rfl)] at hupd
    have hdb2 : db2 = (db ++ [{ pkg with installedAt := t1, updatedAt := t1 }]).map
        (fun r => if keyMatches pkg.owner pkg.repo r then
          { r with version := pkg2.version, binary := pkg2.binary,
                   frozen := pkg2.frozen, platform := pkg2.platform, updatedAt := t2 }
          else r) := by
      cases hupd
      rfl
    subst hdb2
    have hpres : ∀ r : Package, keyMatches pkg.owner pkg.repo
        (if keyMatches pkg.owner pkg.repo r then
          { r with version := pkg2.version, binary := pkg2.binary,
                   frozen := pkg2.frozen, platform := pkg2.platform, updatedAt := t2 }
          else r) = keyMatches pkg.owner pkg.repo r := by
      intro r
      by_cases hk : keyMatches pkg.owner pkg.repo r = true
      · rw [if_pos hk, hk]
        simp only [keyMatches] at hk ⊢
        exact hk
      · rw [if_neg hk]
    have hget2 : getPackage ((db ++ [{ pkg with installedAt := t1, updatedAt := t1 }]).map
        (fun r => if keyMatches pkg.owner pkg.repo r then
          { r with version := pkg2.version, binary := pkg2.binary,
                   frozen := pkg2.frozen, platform := pkg2.platform, updatedAt := t2 }
          else r)) pkg.owner pkg.repo
        = some { pkg2 with owner := pkg.owner, repo := pkg.repo,
                           installedAt := t1, updatedAt := t2 } := by
      rw [getPackage, find?_map_comm _ _ _ hpres]
      rw [getPackage] at hget1
      rw [hget1]
      simp only [Option.map_some']
      rw [if_pos hkeynew]
    have hrow : ({ pkg2 with owner := pkg.owner,
                             repo := pkg.repo,
                             installedAt := t1, updatedAt := t2 } : Package)
        = { pkg2 with installedAt := t1, updatedAt := t2 } := by
      cases pkg2
      simp_all [Package.mk.injEq]
    rw [hrow] at hget2
    refine ⟨hget2, ⟨_, _, hget1, hget2, ?_⟩⟩
    simpa using ht

/-- The updated row used in the C9 witness. -/
def samplePkg2 : Package := ⟨"o", "r", "v2", "o-r-v2", true, "linux-amd64", 0, 0⟩

/-- C9 witness: concrete Add at time 1 followed by Update at time 2. -/
theorem c9_witness :
    getPackage [({ samplePkg with installedAt := 1, updatedAt := 1 } : Package)] "o" "r"
      = some { samplePkg with installedAt := 1, updatedAt := 1 }
    ∧ (getPackage [({ samplePkg2 with installedAt := 1, updatedAt := 2 } : Package)] "o" "r"
      = some { samplePkg2 with installedAt := 1, updatedAt := 2 }
      ∧ (∃ r1 r2,
          getPackage [({ samplePkg with installedAt := 1, updatedAt := 1 } : Package)] "o" "r"
            = some r1
          ∧ getPackage [({ samplePkg2 with installedAt := 1, updatedAt := 2 } : Package)] "o" "r"
            = some r2
          ∧ r1.updatedAt < r2.updatedAt)) := by
  have h := c9_store_roundtrip [] samplePkg 1
    [{ samplePkg with installedAt := 1, updatedAt := 1 }] (by decide)
  have h2 := h.2 samplePkg2 2
    [{ samplePkg2 with installedAt := 1, updatedAt := 2 }] rfl rfl (by decide) (by decide)
  exact ⟨h.1, h2⟩

/-! ## Claims about the transition engine -/

/-- Concrete collaborators for the installer witnesses. -/
def cfg0 : Config := ⟨"/home/u/gaap"⟩

def plat0 : Platform := ⟨"linux", "amd64"⟩

def w0 : World := ⟨[], ⟨[], []⟩⟩

def gh0 : Gh := ⟨.error ()⟩

def rel0 : Release := ⟨"v1", [⟨"tool-linux-amd64", 0, "u"⟩]⟩

def gh1 : Gh := ⟨.ok rel0⟩

/-- C10: an input that does not split on "/" into exactly two parts makes
Install fail with the invalid-repository-name error before any store lookup,
network call, or filesystem change: the result carries the unchanged world
and an empty effect trace. -/
theorem c10_invalid_name_no_effects (repoName : String) (cfg : Config) (plat : Platform)
    (w : World) (gh : Gh) (f : Faults) (opts : Options) (now : Nat)
    (h : (goSplit repoName '/').length ≠ 2) :
    install repoName cfg plat w gh f opts now = (.error .invalidRepoName, w, []) := by
  unfold install
  rcases hs : goSplit repoName '/' with _ | ⟨a, _ | ⟨b, _ | ⟨c, tl⟩⟩⟩
  · rfl
  · rfl
  · rw [hs] at h
    simp at h
  · rfl

/-- C10 witness: a bare name with no slash. -/
theorem c10_witness :
    install "gaap" cfg0 plat0 w0 gh0 {} {} 0 = (.error .invalidRepoName, w0, []) :=
  c10_invalid_name_no_effects "gaap" cfg0 plat0 w0 gh0 {} {} 0 (by decide)

/-- C1: for an Absent (owner, repo), with the repository resolved, the release
fetched, an asset selected and the directories ensured, real-mode
non-interactive Install succeeds iff the download, the chmod, the symlink
creation and the metadata insert all succeed; any failure leaves no metadata
record for the key; and when the insert fails the caller gets the
insert error (wrapped), regardless of how the compensating deletions of the
symlink and binary fare. -/
theorem c1_install_success_iff (repoName owner repo : String) (cfg : Config)
    (plat : Platform) (w : World) (gh : Gh) (f : Faults) (opts : Options) (now : Nat)
    (release : Release) (asset : Asset)
    (hsplit : goSplit repoName '/' = [owner, repo])
    (hni : opts.nonInteractive = true)
    (hdr : opts.dryRun = false)
    (hget : f.dbGetFails = false)
    (habs : getPackage w.db owner repo = none)
    (hrel : gh.latestRelease = .ok release)
    (hsel : selectAsset plat release.assets = some asset)
    (hd1 : f.ensureBinActualFails = false)
    (hd2 : f.ensureBinFails = false) :
    let binaryPath := binaryPathFor cfg (binaryNameFor owner repo release.tagName asset.name)
    let symlinkPath := symlinkPathFor cfg repo plat
    let fs1 := (w.fs.removePath binaryPath).addFile binaryPath
    ((install repoName cfg plat w gh f opts now).1 = .ok ()
      ↔ (f.downloadFails = false ∧ f.chmodFails = false
          ∧ (fs1.here symlinkPath || f.symlinkFails) = false
          ∧ f.dbAddFails = false))
    ∧ ((install repoName cfg plat w gh f opts now).1 ≠ .ok () →
        getPackage (install repoName cfg plat w gh f opts now).2.1.db owner repo = none)
    ∧ (f.downloadFails = false → f.chmodFails = false →
        (fs1.here symlinkPath || f.symlinkFails) = false →
        f.dbAddFails = true →
        (install repoName cfg plat w gh f opts now).1
          = .error (.dbAddFailed .ioFailure)) := by
  intro binaryPath symlinkPath fs1
  cases hdl : f.downloadFails <;> cases hcm : f.chmodFails <;>
    cases hdb : f.dbAddFails <;>
    cases hhe : (fs1.here symlinkPath || f.symlinkFails) <;>
    simp_all [install, hsplit, storeAdd, addPackage, binaryPath, symlinkPath, fs1]

/-- C1 witness: a fault-free install of `o/r` into an empty world. -/
theorem c1_witness :
    (install "o/r" cfg0 plat0 w0 gh1 {} ⟨true, false, false⟩ 7).1 = .ok () := by
  have h := c1_install_success_iff "o/r" "o" "r" cfg0 plat0 w0 gh1 {} ⟨true, false, false⟩ 7
    rel0 ⟨"tool-linux-amd64", 0, "u"⟩ (by decide) rfl rfl rfl rfl rfl (by decide) rfl rfl
  exact h.1.mpr ⟨rfl, rfl, by decide, rfl⟩

/-- C5: Update on a frozen package performs zero network calls and zero
filesystem mutations — the effect trace is empty and the world is returned
unchanged — and reports a skip (success), not an error. -/
theorem c5_update_frozen_skips (pkg : Package) (cfg : Config) (plat : Platform)
    (w : World) (gh : Gh) (f : Faults) (opts : Options) (now : Nat)
    (h : pkg.frozen = true) :
    update pkg cfg plat w gh f opts now = (.ok (), w, []) := by
  simp [update, h]

/-- C5 witness: a concrete frozen package. -/
theorem c5_witness :
    update { samplePkg with frozen := true } cfg0 plat0 w0 gh0 {} {} 3
      = (.ok (), w0, []) :=
  c5_update_frozen_skips { samplePkg with frozen := true } cfg0 plat0 w0 gh0 {} {} 3 rfl

/-! ### C4: removal order and idempotence -/

/-- `osRemove` with no injected failures: delete when present, `IsNotExist`
otherwise. -/
theorem osRemove_no_inject {f : Faults} (hrm : f.removeFailsAt = []) (fs : Fs)
    (path : String) :
    osRemove f fs path
      = (if fs.here path then (RmResult.ok, fs.removePath path)
         else (RmResult.notExist, fs)) := by
  unfold osRemove
  cases h : fs.here path <;> simp [h, hrm]

/-- C4: real-mode Remove performs exactly delete-symlink, delete-binary,
delete-record in that strict order; an already-absent symlink or binary does
not cause an error (the trace is the same three steps), and Remove succeeds
iff the store record exists — an absent record is the one error. -/
theorem c4_remove_order_and_idempotence (pkg : Package) (cfg : Config)
    (plat : Platform) (w : World) (f : Faults) (opts : Options)
    (hdr : opts.dryRun = false)
    (hrm : f.removeFailsAt = [])
    (hdel : f.dbDeleteFails = false) :
    let binaryPath := binaryPathFor cfg pkg.binary
    let symlinkPath := symlinkPathFor cfg pkg.repo plat
    ((remove pkg cfg plat w f opts).2.2
      = [Ev.fsRemove symlinkPath, Ev.fsRemove binaryPath,
         Ev.dbDelete pkg.owner pkg.repo])
    ∧ ((remove pkg cfg plat w f opts).1 = .ok ()
      ↔ (getPackage w.db pkg.owner pkg.repo).isSome = true)
    ∧ ((getPackage w.db pkg.owner pkg.repo).isSome = false →
      (remove pkg cfg plat w f opts).1 = .error (.dbDeleteFailed .notFound)) := by
  intro binaryPath symlinkPath
  cases h1 : w.fs.here symlinkPath
  · cases h2 : w.fs.here binaryPath <;>
      cases h3 : (getPackage w.db pkg.owner pkg.repo).isSome <;>
      simp_all [remove, hdr, osRemove_no_inject hrm, storeDelete, deletePackage,
        binaryPath, symlinkPath]
  · cases h2 : (w.fs.removePath symlinkPath).here binaryPath <;>
      cases h3 : (getPackage w.db pkg.owner pkg.repo).isSome <;>
      simp_all [remove, hdr, osRemove_no_inject hrm, storeDelete, deletePackage,
        binaryPath, symlinkPath]

/-- C4 witness: removing a recorded package whose symlink and binary are both
already absent: no error, and the strict three-step order. -/
theorem c4_witness :
    ((remove samplePkg cfg0 plat0 ⟨[samplePkg], ⟨[], []⟩⟩ {} {}).2.2
      = [Ev.fsRemove (symlinkPathFor cfg0 samplePkg.repo plat0),
         Ev.fsRemove (binaryPathFor cfg0 samplePkg.binary),
         Ev.dbDelete samplePkg.owner samplePkg.repo])
    ∧ (remove samplePkg cfg0 plat0 ⟨[samplePkg], ⟨[], []⟩⟩ {} {}).1 = .ok () := by
  have h := c4_remove_order_and_idempotence samplePkg cfg0 plat0
    ⟨[samplePkg], ⟨[], []⟩⟩ {} {} rfl rfl rfl
  exact ⟨h.1, h.2.1.mpr (by decide)⟩

/-! ### C6: how Update replaces the symlink -/

/-- Replay of the effect trace over a filesystem, to inspect the intermediate
states an execution passes through (fault-free interpretation, matching the
model's own success-path transitions). -/
def applyEv (fs : Fs) (e : Ev) : Fs :=
  match e with
  | .netDownload _ dest => (fs.removePath dest).addFile dest
  | .fsSymlink target path => fs.addLink path target
  | .fsRemove path => if fs.here path then fs.removePath path else fs
  | .fsRename src dst =>
    match fs.links.find? (fun l => l.1 == src) with
    | some l => ((fs.removePath src).removePath dst).addLink dst l.2
    | none => fs
  | _ => fs

def replay (fs : Fs) (evs : List Ev) : Fs :=
  evs.foldl applyEv fs

/-- The package and world for the C6 run: `o/r` installed at v1 with its
binary and command symlink on disk. -/
def pkg1 : Package := ⟨"o", "r", "v1", "o-r-v1", false, "linux-amd64", 0, 0⟩

def w1 : World :=
  ⟨[pkg1], ⟨["/home/u/gaap/bin/actual/o-r-v1"],
    [("/home/u/gaap/bin/r", "/home/u/gaap/bin/actual/o-r-v1")]⟩⟩

def gh2 : Gh := ⟨.ok ⟨"v2", [⟨"tool-linux-amd64", 0, "u"⟩]⟩⟩

/-- The effect trace of the C6 update run. -/
def c6trace : List Ev :=
  [Ev.netLatestRelease "o" "r",
   Ev.fsMkdirAll "/home/u/gaap/bin/actual",
   Ev.fsMkdirAll "/home/u/gaap/bin",
   Ev.netDownload "u" "/home/u/gaap/bin/actual/o-r-v2",
   Ev.fsChmod "/home/u/gaap/bin/actual/o-r-v2",
   Ev.fsRemove "/home/u/gaap/bin/r",
   Ev.fsSymlink "/home/u/gaap/bin/actual/o-r-v2" "/home/u/gaap/bin/r",
   Ev.dbUpdate "o" "r",
   Ev.fsRemove "/home/u/gaap/bin/actual/o-r-v1"]

/-- C6: a successful real-mode Update replaces the symlink by `os.Remove`
followed by `os.Symlink` — delete-then-create, with no rename event anywhere —
and after the delete (trace prefix of length 6) the command symlink does not
exist, although it existed at the start: the claimed no-window temp-and-rename
replacement is not what the code does. -/
theorem c6_update_delete_then_create :
    (update pkg1 cfg0 plat0 w1 gh2 {} ⟨true, false, false⟩ 9).2.2 = c6trace
    ∧ (update pkg1 cfg0 plat0 w1 gh2 {} ⟨true, false, false⟩ 9).1 = .ok ()
    ∧ c6trace.all (fun e => match e with | Ev.fsRename _ _ => false | _ => true) = true
    ∧ (replay w1.fs (c6trace.take 6)).here "/home/u/gaap/bin/r" = false
    ∧ w1.fs.here "/home/u/gaap/bin/r" = true := by
  refine ⟨by decide, by decide, by decide, by decide, by decide⟩

/-! ### C7: resolver search order -/

/-- A search collaborator that finds nothing, ever. -/
def ghZero : Query → Except Unit SearchResult := fun _ => .ok ⟨0, []⟩

/-- C7 counterexample: the input `"a/b/c"` contains `"/"`, yet the resolver
never attempts an exact-match `repo:` search (its first query is the by-name
search), because the exact-match step runs only when the input splits into
exactly two parts. -/
theorem c7_counterexample :
    goContains "a/b/c" "/" = true
    ∧ (searchRepositories ghZero "a/b/c").2
      = [Query.byName "a/b/c", Query.byUser "a/b/c"]
    ∧ ¬ c7ExactMatchFirst ghZero "a/b/c" := by
  refine ⟨by decide, by decide, ?_⟩
  intro h
  obtain ⟨q, hq⟩ := h (by decide)
  have hh : (searchRepositories ghZero "a/b/c").2.head?
      = some (Query.byName "a/b/c") := by decide
  rw [hh] at hq
  exact Query.noConfusion (Option.some.inj hq)

theorem gh_ok_of_ne_error {gh : Query → Except Unit SearchResult} {q : Query}
    (hne : ∀ q, gh q ≠ .error ()) : ∃ r, gh q = .ok r := by
  cases hq : gh q with
  | error e => cases e; exact absurd hq (hne q)
  | ok r => exact ⟨r, rfl⟩

/-- The by-name and by-user fallbacks on an all-zero collaborator: both are
attempted in order, and the outcome is NotFound. -/
theorem searchByNameStep_all_zero (gh : Query → Except Unit SearchResult)
    (input : String) (tr : List Query)
    (hz : ∀ q res, gh q = .ok res → res.totalCount = 0)
    (hne : ∀ q, gh q ≠ .error ()) :
    searchByNameStep gh input none tr
      = (.error .notFound, tr ++ [Query.byName input, Query.byUser input]) := by
  obtain ⟨r3, hq3⟩ := gh_ok_of_ne_error (q := Query.byName input) hne
  obtain ⟨r4, hq4⟩ := gh_ok_of_ne_error (q := Query.byUser input) hne
  simp [searchByNameStep, hq3, hz _ _ hq3, searchFinish, hq4, hz _ _ hq4]

/-- C7 (amended): the resolver tries its steps in the fixed order — the exact
`repo:owner/repo` search and the `user:owner name in:name` search run when the
input splits on "/" into exactly two parts (not merely when it contains "/"),
then by-name, then by-user; each step with zero results falls through; an
exact-match query with exactly one result returns immediately; a step with
nonzero results stops the fall-through; and when every attempted step yields
zero total matches the resolution fails with NotFound. -/
theorem c7_resolver_order :
    (∀ (gh : Query → Except Unit SearchResult) (input owner name : String)
        (res : SearchResult),
      goContains input "/" = true →
      goSplit input '/' = [owner, name] →
      gh (Query.search ("repo:" ++ owner ++ "/" ++ name)) = .ok res →
      res.totalCount = 1 →
      searchRepositories gh input
        = (.ok res, [Query.search ("repo:" ++ owner ++ "/" ++ name)]))
    ∧ (∀ (gh : Query → Except Unit SearchResult) (input owner name : String),
      goContains input "/" = true →
      goSplit input '/' = [owner, name] →
      (∀ q res, gh q = .ok res → res.totalCount = 0) →
      (∀ q, gh q ≠ .error ()) →
      searchRepositories gh input
        = (.error .notFound,
           [Query.search ("repo:" ++ owner ++ "/" ++ name),
            Query.search ("user:" ++ owner ++ " " ++ name ++ " in:name"),
            Query.byName input, Query.byUser input]))
    ∧ (∀ (gh : Query → Except Unit SearchResult) (input : String)
        (res3 : SearchResult),
      goContains input "/" = false →
      gh (Query.byName input) = .ok res3 →
      res3.totalCount ≠ 0 →
      searchRepositories gh input = (.ok res3, [Query.byName input]))
    ∧ (∀ (gh : Query → Except Unit SearchResult) (input : String),
      (goSplit input '/').length ≠ 2 →
      (∀ q res, gh q = .ok res → res.totalCount = 0) →
      (∀ q, gh q ≠ .error ()) →
      searchRepositories gh input
        = (.error .notFound, [Query.byName input, Query.byUser input])) := by
  refine ⟨?_, ?_, ?_, ?_⟩
  · intro gh input owner name res hc hs hgh hone
    simp [searchRepositories, hc, hs, hgh, hone]
  · intro gh input owner name hc hs hz hne
    obtain ⟨r1, hq1⟩ := gh_ok_of_ne_error
      (q := Query.search ("repo:" ++ owner ++ "/" ++ name)) hne
    obtain ⟨r2, hq2⟩ := gh_ok_of_ne_error
      (q := Query.search ("user:" ++ owner ++ " " ++ name ++ " in:name")) hne
    have hsz := searchByNameStep_all_zero gh input
      [Query.search ("repo:" ++ owner ++ "/" ++ name),
       Query.search ("user:" ++ owner ++ " " ++ name ++ " in:name")] hz hne
    obtain ⟨r3, hq3⟩ := gh_ok_of_ne_error (q := Query.byName input) hne
    obtain ⟨r4, hq4⟩ := gh_ok_of_ne_error (q := Query.byUser input) hne
    simp [searchRepositories, hc, hs, hq1, hz _ _ hq1, hq2, hz _ _ hq2,
      searchByNameStep, hq3, hz _ _ hq3, searchFinish, hq4, hz _ _ hq4]
  · intro gh input res3 hc hgh hnz
    simp [searchRepositories, hc, searchByNameStep, hgh, searchFinish, hnz]
  · intro gh input hlen hz hne
    cases hc : goContains input "/"
    · rw [searchRepositories, hc]
      simp only [Bool.false_eq_true, if_false]
      exact searchByNameStep_all_zero gh input [] hz hne
    · rw [searchRepositories, hc, if_pos rfl]
      rcases hs : goSplit input '/' with _ | ⟨a, _ | ⟨b, _ | ⟨c, tl⟩⟩⟩
      · exact searchByNameStep_all_zero gh input [] hz hne
      · exact searchByNameStep_all_zero gh input [] hz hne
      · rw [hs] at hlen
        simp at hlen
      · exact searchByNameStep_all_zero gh input [] hz hne

/-- The collaborator for the C7 witness: exactly one hit for the exact-match
query, nothing anywhere else. -/
def ghExact : Query → Except Unit SearchResult :=
  fun q => if q = Query.search "repo:o/r" then .ok ⟨1, [⟨"o/r", 10⟩]⟩ else .ok ⟨0, []⟩

/-- C7 witness: exact-match input `"o/r"` with a single hit returns that hit
immediately after the one query. -/
theorem c7_witness :
    searchRepositories ghExact "o/r"
      = (.ok ⟨1, [⟨"o/r", 10⟩]⟩, [Query.search "repo:o/r"]) :=
  c7_resolver_order.1 ghExact "o/r" "o" "r" ⟨1, [⟨"o/r", 10⟩]⟩
    (by decide) (by decide) (by decide) (by decide)

end Gaap
